import Mathlib

/-!
Verification development for the arcanist diff-application engine
(src/arcanist in the repository under review).

The Python modules are shallowly embedded as Lean functions:

* src/arcanist/hg.py      : ArcanistHg._patch_data, ArcanistHg._apply_diff,
                            ArcanistHg.apply_diff, the remotefilelog candidate
                            walk, and the diff-to-commit mapping file.
* src/arcanist/git.py     : ArcanistGit._apply_diff parent computation.
* src/arcanist/gitapply.py: RevisionApplier.apply_next_diff parent computation.
* src/arcanist/apply_diffs.py : _Applier.run (resume scan and apply loop) and
                            _Applier._get_commit_info.

File contents (Python byte strings) are embedded as List Char; the functions
that in Python raise exceptions are embedded in the Except monad, with an
explicit error type mirroring the exception class hierarchy of the source
(PathPatchError, BadPatchError which is a PatchFailedError, plain Exception,
KeyError, AssertionError).  Commit objects and paths are embedded as natural
numbers; only their identity matters to the engine.
-/

namespace ArcApply

/-- Kinds of PathPatchError raised by ArcanistHg._patch_data and the per-path
existence checks of hg.py; the payloads carry the numbers that appear in the
corresponding Python error messages. -/
inductive PatchErrKind where
  /-- raised when a hunk supplies old-file lines for a newly created file -/
  | newFileHasOld : PatchErrKind
  /-- mismatch at line (oldIdx+1): old file ends at line fileLen -/
  | oldFileEnds (line : Int) (fileLen : Nat) : PatchErrKind
  /-- bad patch data: contents at invalid line number (oldIdx+1) -/
  | invalidLineNumber (line : Int) : PatchErrKind
  /-- mismatch at line (oldIdx+1): expected one line, found another -/
  | lineMismatch (line : Int) (expected found : List Char) : PatchErrKind
  /-- mismatch: old file was empty -/
  | oldFileWasEmpty : PatchErrKind
  /-- patch stopped prior to the last line of the old file -/
  | stoppedPriorToLastLine : PatchErrKind
  /-- patch ended at line endedAt of old file, while file had fileLen lines -/
  | didNotConsume (endedAt : Int) (fileLen : Nat) : PatchErrKind
  /-- file does not exist in the commit -/
  | fileMissing : PatchErrKind
  /-- file already exists in the commit -/
  | fileExists : PatchErrKind
deriving DecidableEq, Repr

/-- Embedded Python exception values, mirroring the exception classes that the
engine raises and catches.  The class hierarchy of the source is:
Exception > PatchFailedError > BadPatchError, and Exception > PathPatchError;
KeyError and AssertionError are builtin, unrelated to PatchFailedError. -/
inductive PyErr where
  /-- PathPatchError from hg.py (subclass of Exception only) -/
  | pathPatch (kind : PatchErrKind) : PyErr
  /-- BadPatchError carrying the node and the per-path failure dict -/
  | badPatch (node : Nat) (paths : List (Option Nat × PatchErrKind)) : PyErr
  /-- PatchFailedError raised when no candidate commit works -/
  | patchFailed : PyErr
  /-- plain Exception (for example the unexpected-line error in _patch_data) -/
  | exception : PyErr
  /-- KeyError from a missing dict key -/
  | keyError : PyErr
  /-- AssertionError from a failed assert statement -/
  | assertionError : PyErr
deriving DecidableEq, Repr

/-- Decidable equality on embedded Python results, so that concrete runs of
the embedded functions can be checked by the decide tactic. -/
instance exceptDecEq {ε α : Type _} [DecidableEq ε] [DecidableEq α] :
    DecidableEq (Except ε α) := fun x y =>
  match x, y with
  | .ok a, .ok b =>
    if h : a = b then .isTrue (by rw [h])
    else .isFalse (by intro hc; injection hc; contradiction)
  | .error a, .error b =>
    if h : a = b then .isTrue (by rw [h])
    else .isFalse (by intro hc; injection hc; contradiction)
  | .ok _, .error _ => .isFalse (by intro hc; exact Except.noConfusion hc)
  | .error _, .ok _ => .isFalse (by intro hc; exact Except.noConfusion hc)

/-- Which errors an "except PathPatchError" clause catches. -/
def PyErr.isPathPatch : PyErr → Bool
  | .pathPatch _ => true
  | _ => false

/-- Which errors an "except BadPatchError" clause catches. -/
def PyErr.isBadPatch : PyErr → Bool
  | .badPatch _ _ => true
  | _ => false

/-- Which errors an "except PatchFailedError" clause catches: BadPatchError is
a subclass of PatchFailedError. -/
def PyErr.isPatchFailed : PyErr → Bool
  | .badPatch _ _ => true
  | .patchFailed => true
  | _ => false

/-- Python str.split on a newline character: "a\nb\n" gives ["a", "b", ""] and
the empty string gives [""].  This embeds old.split of _patch_data. -/
def splitNL : List Char → List (List Char)
  | [] => [[]]
  | c :: rest =>
    let r := splitNL rest
    if c = '\n' then [] :: r
    else
      match r with
      | l :: ls => (c :: l) :: ls
      | [] => [[c]]

/-- Joining the produced lines: "\n".join(new_lines), plus a trailing newline
when the terminating_newline flag is still set. -/
def joinNL (lines : List (List Char)) (terminatingNewline : Bool) : List Char :=
  (List.intercalate ['\n'] lines) ++ (if terminatingNewline then ['\n'] else [])

/-- The sentinel string Phabricator appends when the file was missing a
terminating newline. -/
def noEndNewlineLine : List Char := "\\ No newline at end of file".data

/-- One Phabricator hunk as consumed by _patch_data: the oldOffset field and
the corpus already split into lines (hunk.corpus.splitlines()). -/
structure Hunk where
  oldOffset : Int
  corpus : List (List Char)
deriving DecidableEq, Repr

/-- The mutable state of the _patch_data loop: the accumulated new lines, the
terminating_newline flag and the old-file cursor old_idx. -/
structure PatchState where
  newLines : List (List Char)
  termNL : Bool
  oldIdx : Int
deriving DecidableEq, Repr

/-- Initial state of the _patch_data loop: new_lines = [],
terminating_newline = True, old_idx = -1. -/
def initPatchState : PatchState :=
  { newLines := [], termNL := true, oldIdx := -1 }

/-- Processing of a single non-sentinel corpus line in _patch_data.
oldLines? is None exactly when the old argument was None.  An added line is
appended without touching the cursor; otherwise the old-file presence, the
upper bound and the lower bound of the cursor are checked in source order,
the line is classified as context, removal, or unexpected (plain Exception),
and the old line at the cursor is compared byte for byte. -/
def processLine (oldLines? : Option (List (List Char))) (st : PatchState)
    (line : List Char) : Except PyErr PatchState :=
  if line.head? = some '+' then
    .ok { st with newLines := st.newLines ++ [line.tail] }
  else
    match oldLines? with
    | none => .error (.pathPatch .newFileHasOld)
    | some oldLines =>
      if st.oldIdx ≥ (oldLines.length : Int) then
        .error (.pathPatch (.oldFileEnds (st.oldIdx + 1) oldLines.length))
      else if st.oldIdx < 0 then
        .error (.pathPatch (.invalidLineNumber (st.oldIdx + 1)))
      else
        let keepLine? : Option Bool :=
          if line.head? = some ' ' then some true
          else if line.head? = some '-' then some false
          else none
        match keepLine? with
        | none => .error .exception
        | some keepLine =>
          let oldLine := oldLines.getD st.oldIdx.toNat []
          if oldLine ≠ line.tail then
            .error (.pathPatch (.lineMismatch (st.oldIdx + 1) oldLine line.tail))
          else
            .ok { st with oldIdx := st.oldIdx + 1,
                          newLines :=
                            if keepLine then st.newLines ++ [oldLine]
                            else st.newLines }

/-- The inner loop of _patch_data over the corpus lines of one hunk.  The
no-trailing-newline sentinel is only recognized on the final line, where it
clears the terminating_newline flag and ends the hunk. -/
def processCorpus (oldLines? : Option (List (List Char))) (st : PatchState) :
    List (List Char) → Except PyErr PatchState
  | [] => .ok st
  | [line] =>
    if line = noEndNewlineLine then .ok { st with termNL := false }
    else processLine oldLines? st line
  | line :: rest =>
    match processLine oldLines? st line with
    | .ok st2 => processCorpus oldLines? st2 rest
    | .error e => .error e

/-- Processing of a single hunk: seek the cursor to oldOffset - 1, then run
the corpus lines. -/
def processHunk (oldLines? : Option (List (List Char))) (st : PatchState)
    (h : Hunk) : Except PyErr PatchState :=
  processCorpus oldLines? { st with oldIdx := h.oldOffset - 1 } h.corpus

/-- The outer loop of _patch_data over all hunks. -/
def runHunks (oldLines? : Option (List (List Char))) (st : PatchState) :
    List Hunk → Except PyErr PatchState
  | [] => .ok st
  | h :: hs =>
    match processHunk oldLines? st h with
    | .ok st2 => runHunks oldLines? st2 hs
    | .error e => .error e

/-- The final consumption check of _patch_data, run after all hunks.  For a
new file the cursor must never have moved; for an existing file it must sit
exactly at len(old_lines), or at len(old_lines) - 1 with that final entry
empty (the terminating-newline artifact of split). -/
def consumptionCheck (oldLines? : Option (List (List Char))) (st : PatchState) :
    Except PyErr Unit :=
  match oldLines? with
  | none =>
    if st.oldIdx ≠ -1 then .error (.pathPatch .oldFileWasEmpty) else .ok ()
  | some oldLines =>
    if st.oldIdx + 1 = (oldLines.length : Int) then
      if oldLines.getD st.oldIdx.toNat [] ≠ [] then
        .error (.pathPatch .stoppedPriorToLastLine)
      else .ok ()
    else if st.oldIdx ≠ (oldLines.length : Int) then
      .error (.pathPatch (.didNotConsume (st.oldIdx + 1) oldLines.length))
    else .ok ()

/-- Embedding of ArcanistHg._patch_data.  The result is the new file content;
it is None exactly when there are no hunks and old is None (the Python
function returns its old argument unchanged in the no-hunks case). -/
def patchData (old : Option (List Char)) (hunks : List Hunk) :
    Except PyErr (Option (List Char)) :=
  if hunks.isEmpty then .ok old
  else
    let oldLines? := old.map splitNL
    match runHunks oldLines? initPatchState hunks with
    | .error e => .error e
    | .ok st =>
      match consumptionCheck oldLines? st with
      | .error e => .error e
      | .ok _ => .ok (some (joinNL st.newLines st.termNL))

/-! ## Change Applier: ArcanistHg._apply_diff_path and the per-change loop of
ArcanistHg._apply_diff (hg.py lines 262-356). -/

/-- The change types dispatched on by _apply_diff_path (the ChangeSet.TYPE_*
constants of the phabricator change model). -/
inductive ChangeType where
  | add | change | delete | moveAway | copyAway | moveHere | copyHere
  | multicopy | message | child
deriving DecidableEq, Repr

/-- One phabricator ChangeSet as consumed by _apply_diff_path: the type tag,
the current and old paths (already munged; paths are embedded as naturals and
may be absent), and the hunks. -/
structure Change where
  type : ChangeType
  currentPath : Option Nat
  oldPath : Option Nat
  hunks : List Hunk
deriving DecidableEq, Repr

/-- One entry of the new_data dict built by _apply_diff: the target path maps
to the new content (None meaning the path is deleted) and the copy source. -/
abbrev NDEntry := Option Nat × (Option (List Char) × Option Nat)

/-- Embedding of ArcanistHg._get_path_data: read a blob from the candidate
commit, converting a manifest lookup failure into a PathPatchError. -/
def getPathData (blob : Option Nat → Option (List Char)) (p : Option Nat) :
    Except PyErr (List Char) :=
  match blob p with
  | some d => .ok d
  | none => .error (.pathPatch .fileMissing)

/-- Embedding of ArcanistHg._check_file_present. -/
def checkFilePresent (blob : Option Nat → Option (List Char)) (p : Option Nat) :
    Except PyErr Unit :=
  if (blob p).isSome then .ok () else .error (.pathPatch .fileMissing)

/-- Embedding of ArcanistHg._check_file_not_present. -/
def checkFileNotPresent (blob : Option Nat → Option (List Char))
    (p : Option Nat) : Except PyErr Unit :=
  if (blob p).isSome then .error (.pathPatch .fileExists) else .ok ()

/-- Embedding of ArcanistHg._apply_diff_path: dispatch on the change type.
blob gives the file contents present at the candidate commit.  The unhandled
change types (TYPE_MULTICOPY, TYPE_MESSAGE, TYPE_CHILD) raise a plain
Exception, and the asserts raise AssertionError; neither is a
PathPatchError. -/
def applyDiffPath (blob : Option Nat → Option (List Char)) (ch : Change)
    (newData : List NDEntry) : Except PyErr (List NDEntry) :=
  match ch.type with
  | .add => do
    let _ ← checkFileNotPresent blob ch.currentPath
    let d ← patchData none ch.hunks
    .ok (newData ++ [(ch.currentPath, (d, none))])
  | .change =>
    if ch.currentPath ≠ ch.oldPath then .error .assertionError
    else do
      let old ← getPathData blob ch.oldPath
      let d ← patchData (some old) ch.hunks
      .ok (newData ++ [(ch.currentPath, (d, none))])
  | .delete => do
    let _ ← checkFilePresent blob ch.currentPath
    .ok (newData ++ [(ch.currentPath, (none, none))])
  | .moveAway =>
    if ch.oldPath ≠ none then .error .assertionError
    else .ok (newData ++ [(ch.currentPath, (none, none))])
  | .copyAway => .ok newData
  | .moveHere | .copyHere =>
    if ch.currentPath = ch.oldPath then .error .assertionError
    else do
      let _ ← checkFileNotPresent blob ch.currentPath
      let old ← getPathData blob ch.oldPath
      let d ← patchData (some old) ch.hunks
      .ok (newData ++ [(ch.currentPath, (d, ch.oldPath))])
  | .multicopy | .message | .child => .error .exception

/-- The per-change loop of ArcanistHg._apply_diff: each change is applied,
and only PathPatchError is caught and accumulated into the bad_paths dict
(keyed by change.current_path or change.old_path); any other error
propagates immediately. -/
def applyChangesGo (blob : Option Nat → Option (List Char)) :
    List Change → List NDEntry → List (Option Nat × PatchErrKind) →
    Except PyErr (List NDEntry × List (Option Nat × PatchErrKind))
  | [], nd, bad => .ok (nd, bad)
  | ch :: rest, nd, bad =>
    match applyDiffPath blob ch nd with
    | .ok nd2 => applyChangesGo blob rest nd2 bad
    | .error (.pathPatch k) =>
      applyChangesGo blob rest nd (bad ++ [(ch.currentPath.or ch.oldPath, k)])
    | .error e => .error e

/-- The content-computation phase of ArcanistHg._apply_diff (hg.py lines
262-274): run all changes, and if any path failed raise one BadPatchError
carrying the candidate node and the full set of failing paths. -/
def applyDiffChanges (blob : Option Nat → Option (List Char)) (node : Nat)
    (changes : List Change) : Except PyErr (List NDEntry) :=
  match applyChangesGo blob changes [] [] with
  | .error e => .error e
  | .ok (nd, bad) =>
    if bad.isEmpty then .ok nd else .error (.badPatch node bad)

/-! ## Commit Materializer parent lists (C5). -/

/-- Parent tuple passed to memctx by ArcanistHg._apply_diff (hg.py lines
290-293): (node, None) when there is no previous commit, meaning the single
parent node, and (node, prev) otherwise.  No equality check is made. -/
def hgParents (node : Nat) (prevCommit : Option Nat) : List Nat :=
  match prevCommit with
  | none => [node]
  | some p => [node, p]

/-- Parent tuple computed by ArcanistGit._apply_diff (git.py lines 75-79):
same shape as the mercurial backend, again without an equality check. -/
def gitParents (commit : Nat) (prevCommit : Option Nat) : List Nat :=
  match prevCommit with
  | none => [commit]
  | some p => [commit, p]

/-- Parent list computed by RevisionApplier.apply_next_diff (gitapply.py
lines 338-342): [onto] when ref_head is None or equal to onto, and otherwise
[ref_head, onto] with the chain head first. -/
def gitapplyParents (ontoSha1 : Nat) (refHead : Option Nat) : List Nat :=
  match refHead with
  | none => [ontoSha1]
  | some h => if h = ontoSha1 then [ontoSha1] else [h, ontoSha1]

/-! ## Diff Applicator: ArcanistHg.apply_diff (hg.py lines 51-95). -/

/-- The candidate loop of ArcanistHg.apply_diff: try _apply_diff against each
candidate, catching only BadPatchError (in which case the next candidate is
tried); when the candidates are exhausted, raise PatchFailedError. -/
def applyCandidates (attempt : Nat → Except PyErr Nat) :
    List Nat → Except PyErr Nat
  | [] => .error .patchFailed
  | n :: ns =>
    match attempt n with
    | .ok c => .ok c
    | .error e => if e.isBadPatch then applyCandidates attempt ns else .error e

/-- Embedding of ArcanistHg.apply_diff: when find_base_commit located the
declared base commit, _apply_diff is invoked on it directly, outside any
try/except; only when no base commit was found does the candidate loop run.
attempt stands for the call self._apply_diff(node, diff, rev, metadata) and
candidates for the sequence produced by self._candidate_commits. -/
def applyDiffHg (findBase : Option Nat) (candidates : List Nat)
    (attempt : Nat → Except PyErr Nat) : Except PyErr Nat :=
  match findBase with
  | some parent => attempt parent
  | none => applyCandidates attempt candidates

/-! ## Revision Sequencer: _Applier.run (apply_diffs.py lines 75-122). -/

/-- The resume scan of _Applier.run (apply_diffs.py lines 82-91): walk the
revision's diffs in order; a diff with an existing mapping entry appends its
commit to results and resets to_apply to the empty list, while an unmapped
diff is appended to to_apply together with its index. -/
def resumeScan (diffIds : List Nat) (existing : Nat → Option Nat) :
    List Nat × List (Nat × Nat) :=
  diffIds.enum.foldl
    (fun acc p =>
      match existing p.2 with
      | none => (acc.1, acc.2 ++ [p])
      | some c => (acc.1 ++ [c], []))
    ([], [])

/-- The apply loop of _Applier.run (apply_diffs.py lines 93-122).  total is
len(rev.diffs); the worklist holds (diff_idx, diff_id) pairs; results is the
list of commits so far and mapping the diff-to-commit entries appended to the
mapping file so far (ArcanistHg._apply_diff appends exactly one entry, on its
success path).  Only PatchFailedError is caught, and only when the failing
diff is not the last diff of the revision; a propagated error carries the
mapping entries written so far, which persist in the file. -/
def applyLoop (total : Nat) (apply : Nat → Option Nat → Except PyErr Nat) :
    List (Nat × Nat) → List Nat → List (Nat × Nat) →
    Except (PyErr × List (Nat × Nat)) (List Nat × List (Nat × Nat))
  | [], results, mapping => .ok (results, mapping)
  | (idx, d) :: rest, results, mapping =>
    match apply d results.getLast? with
    | .ok c => applyLoop total apply rest (results ++ [c]) (mapping ++ [(d, c)])
    | .error e =>
      if e.isPatchFailed then
        if idx + 1 = total then .error (e, mapping)
        else applyLoop total apply rest results mapping
      else .error (e, mapping)

/-! ## Candidate Resolver fallback walk:
ArcanistHg._remotefilelog_candidate_commits (hg.py lines 145-219). -/

/-- One entry of rev_heap: the commit number it was inserted with and the
remaining ancestor generator, embedded as the list of commit numbers it will
still produce.  Python stores the pair (-rev, generator) in a min-heap; the
embedding stores rev and selects the maximal rev, which is the same
priority. -/
structure HeapEntry where
  rev : Nat
  gen : List Nat
deriving DecidableEq, Repr

/-- Insertion into the priority queue, keeping it sorted by descending rev
(the abstract behavior of heapq.heappush on keys -rev). -/
def pqInsert (e : HeapEntry) : List HeapEntry → List HeapEntry
  | [] => [e]
  | x :: xs => if e.rev > x.rev then e :: x :: xs else x :: pqInsert e xs

/-- heapq.heappushpop on the descending-rev queue: push e, then pop the
entry with the largest rev and discard it (the return value is unused in the
source). -/
def pqPushPop (e : HeapEntry) : List HeapEntry → List HeapEntry
  | [] => []
  | x :: xs => if e.rev > x.rev then x :: xs else pqInsert e xs

/-- Total length of the pending generators, used as part of the termination
measure of the walk. -/
def genSum (heap : List HeapEntry) : Nat :=
  (heap.map (fun e => e.gen.length)).sum

/-- The main loop of _remotefilelog_candidate_commits (hg.py lines 201-219):
while the heap is not empty, yield the rev at the top; then advance the
generator of the top entry: if it is exhausted, or its next rev was already
seen, pop the top entry; otherwise push the advanced generator keyed by the
next rev, mark the next rev seen, and pop the top of the enlarged heap
(heappushpop). -/
def rflLoop : List HeapEntry → List Nat → List Nat
  | [], _ => []
  | ⟨r, []⟩ :: rest, seen => r :: rflLoop rest seen
  | ⟨r, nr :: g'⟩ :: rest, seen =>
    r ::
      (if nr ∈ seen then rflLoop rest seen
       else rflLoop (pqPushPop ⟨nr, g'⟩ (⟨r, g'⟩ :: rest)) (nr :: seen))
termination_by heap _ => genSum heap + heap.length
decreasing_by
  · simp only [genSum, List.map_cons, List.sum_cons, List.length_cons]
    omega
  · simp only [genSum, List.map_cons, List.sum_cons, List.length_cons]
    omega
  · have key : ∀ (e : HeapEntry) (l : List HeapEntry),
        genSum (pqInsert e l) = e.gen.length + genSum l ∧
        (pqInsert e l).length = l.length + 1 := by
      intro e l
      induction l with
      | nil => simp [pqInsert, genSum]
      | cons x xs ih =>
        simp only [pqInsert]
        by_cases hxe : e.rev > x.rev
        · simp [hxe, genSum]
        · simp only [hxe, if_false, genSum, List.map_cons, List.sum_cons,
            List.length_cons] at *
          omega
    simp only [pqPushPop]
    by_cases hc : nr > r
    · simp only [hc, if_true, genSum, List.map_cons, List.sum_cons,
        List.length_cons]
      simp
    · simp only [hc, if_false]
      have h1 := (key ⟨nr, g'⟩ rest).1
      have h2 := (key ⟨nr, g'⟩ rest).2
      simp only [genSum, List.map_cons, List.sum_cons, List.length_cons] at *
      omega

/-- Embedding of _remotefilelog_candidate_commits (hg.py lines 176-219).
Each seed is a pair (rev, ancestors): the linkrev of the file context found
for one (head, path) pair together with the commit numbers its ancestor
generator will produce, newest first.  The initialization loop inserts each
seed whose rev has not been seen yet, then the heap walk yields commit
numbers. -/
def rflWalk (seeds : List (Nat × List Nat)) : List Nat :=
  let init := seeds.foldl
    (fun acc s =>
      if s.1 ∈ acc.2 then acc
      else (pqInsert ⟨s.1, s.2⟩ acc.1, s.1 :: acc.2))
    (([] : List HeapEntry), ([] : List Nat))
  rflLoop init.1 init.2

/-! ## Diff-to-commit mapping file: ArcanistHg._load_diff_mappings and
ArcanistHg._save_diff_mapping (hg.py lines 518-543). -/

/-- Decimal digit character for a value below ten. -/
def digitChar (d : Nat) : Char := Char.ofNat (48 + d)

/-- Decimal representation of a natural number, embedding the %d formatting
used by _save_diff_mapping. -/
def natToDigits (n : Nat) : List Char :=
  if h : n < 10 then [digitChar n]
  else natToDigits (n / 10) ++ [digitChar (n % 10)]
decreasing_by
  exact Nat.div_lt_self (by omega) (by omega)

/-- Value of a string of decimal digits, embedding int() as applied by
_load_diff_mappings to the first regex group. -/
def digitsToNat (l : List Char) : Nat :=
  l.foldl (fun n c => n * 10 + (c.toNat - 48)) 0

/-- Characters accepted by the second group of the mapping-line regex,
[0-9a-fA-F]. -/
def isHexChar (c : Char) : Bool :=
  c.isDigit || ('a' ≤ c && c ≤ 'f') || ('A' ≤ c && c ≤ 'F')

/-- The mapping file line written by _save_diff_mapping for one diff id and
commit hex, without its terminating newline: "<diff_id>: <commit_hex>". -/
def fmtLine (diffId : Nat) (hex : List Char) : List Char :=
  natToDigits diffId ++ ':' :: ' ' :: hex

/-- Embedding of the line regex of _load_diff_mappings,
([0-9]+): ([0-9a-fA-F]+) anchored on both sides: the longest leading run of
digits, then the separator, then a nonempty all-hex remainder. -/
def parseLine (line : List Char) : Option (Nat × List Char) :=
  let ds := line.takeWhile Char.isDigit
  let rest := line.drop ds.length
  if ds.isEmpty then none
  else
    match rest with
    | ':' :: ' ' :: hex =>
      if hex.isEmpty then none
      else if hex.all isHexChar then some (digitsToNat ds, hex)
      else none
    | _ => none

/-- Embedding of _load_diff_mappings.  The file is None when absent (the
ENOENT case, which yields the empty mapping) and otherwise the list of its
lines without terminating newlines.  A line the regex does not match makes
the Python function fail (None here); matching lines are accumulated in
order, and the dict keyed by diff id gives the last write for each id. -/
def loadDiffMappings (file : Option (List (List Char))) :
    Option (List (Nat × List Char)) :=
  match file with
  | none => some []
  | some lines =>
    lines.foldl
      (fun acc l => acc.bind fun m => (parseLine l).map fun e => m ++ [e])
      (some [])

/-- Embedding of _save_diff_mapping: the file is opened in append mode and
exactly one formatted line is written at the end. -/
def saveDiffMapping (fileLines : List (List Char)) (diffId : Nat)
    (hex : List Char) : List (List Char) :=
  fileLines ++ [fmtLine diffId hex]

/-- Lookup in the dict built by _load_diff_mappings: the last write for a
given diff id wins, as in a Python dict populated in line order. -/
def dictGet (m : List (Nat × List Char)) (k : Nat) : Option (List Char) :=
  ((m.filter fun e => e.1 = k).getLast?).map (fun e => e.2)

/-! ## Commit metadata: _Applier._get_commit_info
(apply_diffs.py lines 124-145). -/

/-- The diff parameters consulted by _get_commit_info, each absent when the
dict lacks the key. -/
structure DiffParams where
  authorName : Option (List Char)
  authorEmail : Option (List Char)
  dateCreated : Option Int
deriving DecidableEq, Repr

/-- The CommitInfo record of apply_diffs.py. -/
structure CommitInfo where
  authorName : List Char
  authorEmail : List Char
  timestamp : Int
  message : List Char
  prevCommit : Option Nat
deriving DecidableEq, Repr

/-- Embedding of _Applier._get_commit_info.  userInfo stands for the conduit
user.query lookup keyed by the revision author, commitMsg for the computed
commit message and now for time.time().  The authorName branch mirrors the
Python truthiness test (None or empty string fall back to the user lookup,
and otherwise reading authorEmail can raise KeyError); the timestamp local
falls back to now, but the CommitInfo constructor call re-reads
all_params of dateCreated, raising KeyError when the key is absent. -/
def getCommitInfo (commitMsg : List Char) (userInfo : List Char × List Char)
    (params : DiffParams) (now : Int) (parentCommit : Option Nat) :
    Except PyErr CommitInfo :=
  let author : Except PyErr (List Char × List Char) :=
    match params.authorName with
    | none => .ok userInfo
    | some an =>
      if an = [] then .ok userInfo
      else
        match params.authorEmail with
        | none => .error .keyError
        | some ae => .ok (an, ae)
  let _timestamp : Int :=
    match params.dateCreated with
    | some t => t
    | none => now
  match author with
  | .error e => .error e
  | .ok (name, email) =>
    match params.dateCreated with
    | none => .error .keyError
    | some t =>
      .ok { authorName := name, authorEmail := email, timestamp := t,
            message := commitMsg, prevCommit := parentCommit }

/-! ## Claim theorems -/

/-- C2, counterexample.  The Patch Reconstructor, given old content
"foo\nbar\nbaz\n" and the single hunk with old_offset 2 and lines
[Removed bar, Added BAR], does not succeed: the hunk leaves old lines
unconsumed, so _patch_data raises the patch-ended-early PathPatchError
(the cursor stopped at line 3 of the 4 split entries) instead of
returning "foo\nBAR\nbaz\n". -/
theorem c2_counterexample :
    patchData (some "foo\nbar\nbaz\n".data)
        [⟨2, ["-bar".data, "+BAR".data]⟩] =
      .error (.pathPatch (.didNotConsume 3 4)) ∧
    patchData (some "foo\nbar\nbaz\n".data)
        [⟨2, ["-bar".data, "+BAR".data]⟩] ≠
      .ok (some "foo\nBAR\nbaz\n".data) := by
  constructor
  · decide
  · decide

/-- C2, amended.  A hunk must consume the whole old file: with old content
"foo\nbar\nbaz\n" and the hunk with old_offset 1 and lines
[Context foo, Removed bar, Added BAR, Context baz], the Patch Reconstructor
succeeds and returns "foo\nBAR\nbaz\n". -/
theorem c2_patch_example :
    patchData (some "foo\nbar\nbaz\n".data)
        [⟨1, [" foo".data, "-bar".data, "+BAR".data, " baz".data]⟩] =
      .ok (some "foo\nBAR\nbaz\n".data) := by
  decide

/-- C5, counterexample.  The claim fails on the code in two ways.  In the
mercurial backend, a chain parent equal to the candidate still produces the
two-parent tuple (node, node) rather than [candidate]: hgParents 1 (some 1)
is [1, 1].  In the gitapply RevisionApplier, a chain parent distinct from
the candidate is listed first: gitapplyParents 1 (some 2) is [2, 1], not
[candidate, chain_parent] = [1, 2]. -/
theorem c5_counterexample :
    hgParents 1 (some 1) = [1, 1] ∧ ([1, 1] : List Nat) ≠ [1] ∧
    gitapplyParents 1 (some 2) = [2, 1] ∧ ([2, 1] : List Nat) ≠ [1, 2] := by
  refine ⟨rfl, by decide, rfl, by decide⟩

/-- C5, amended.  The hg and git backends build the parent list [candidate]
exactly when the chain parent is absent, and [candidate, chain_parent]
otherwise, with no equality check (so an equal chain parent yields
[candidate, candidate]); the gitapply RevisionApplier builds [candidate]
when the chain parent is absent or equal to the candidate, and otherwise
[chain_parent, candidate], with the chain parent first. -/
theorem c5_parent_lists :
    (∀ node : Nat, hgParents node none = [node]) ∧
    (∀ node p : Nat, hgParents node (some p) = [node, p]) ∧
    (∀ c : Nat, gitParents c none = [c]) ∧
    (∀ c p : Nat, gitParents c (some p) = [c, p]) ∧
    (∀ onto : Nat, gitapplyParents onto none = [onto]) ∧
    (∀ onto h : Nat, gitapplyParents onto (some h) =
        if h = onto then [onto] else [h, onto]) :=
  ⟨fun _ => rfl, fun _ _ => rfl, fun _ => rfl, fun _ _ => rfl,
   fun _ => rfl, fun _ _ => rfl⟩

/-- C1, counterexample.  With diffs [1, 2, 3] where the mapping holds
entries for diff 1 (commit 101) and diff 3 (commit 103) but not for diff 2,
the resume scan of _Applier.run produces results [101, 103] and an empty
worklist: diff 2 (after the first gap) and diff 3 are not re-attempted,
whereas the claim requires every diff after the first gap — here the
worklist [(1, 2), (2, 3)] — to be re-attempted. -/
theorem c1_counterexample :
    resumeScan [1, 2, 3]
        (fun id => if id = 1 then some 101
                   else if id = 3 then some 103 else none) =
      ([101, 103], []) ∧
    ([] : List (Nat × Nat)) ≠ [(1, 2), (2, 3)] := by
  constructor
  · decide
  · decide

/-- C1, amended.  The resume scan resumes after the last mapped diff, not
after the first gap: results collects the mapped commits of every diff that
has a mapping entry, in order, and the worklist is exactly the maximal
trailing run of diffs without mapping entries — so unmapped diffs situated
before the last mapped diff are never re-attempted, and no diff with a
mapping entry is ever re-attempted. -/
theorem c1_resume_after_last_mapped (diffIds : List Nat)
    (existing : Nat → Option Nat) :
    resumeScan diffIds existing =
      (diffIds.filterMap existing,
       (diffIds.enum.reverse.takeWhile fun p => (existing p.2).isNone).reverse) := by
  have main : ∀ (pairs : List (Nat × Nat)) (res : List Nat)
      (toap : List (Nat × Nat)),
      pairs.foldl
          (fun acc p =>
            match existing p.2 with
            | none => (acc.1, acc.2 ++ [p])
            | some c => (acc.1 ++ [c], []))
          (res, toap) =
        (res ++ pairs.filterMap (fun p => existing p.2),
         if pairs.all (fun p => (existing p.2).isNone) then toap ++ pairs
         else (pairs.reverse.takeWhile fun p => (existing p.2).isNone).reverse) := by
    intro pairs
    induction pairs using List.reverseRecOn with
    | nil => intro res toap; simp
    | append_singleton l q ih =>
      intro res toap
      rw [List.foldl_append]
      rw [ih]
      cases hq : existing q.2 with
      | none =>
        simp only [List.filterMap_append, List.filterMap_cons, hq,
          List.filterMap_nil, List.all_append, List.all_cons, List.all_nil,
          Option.isNone_none, Bool.and_true, Bool.true_and,
          List.reverse_append, List.reverse_cons, List.reverse_nil,
          List.nil_append, List.cons_append, List.takeWhile_cons,
          List.append_nil]
        by_cases hall : l.all (fun p => (existing p.2).isNone)
        · have : (l.reverse.takeWhile fun p => (existing p.2).isNone) =
              l.reverse := by
            apply List.takeWhile_eq_self_iff.mpr
            intro x hx
            exact List.all_eq_true.mp hall x (List.mem_reverse.mp hx)
          simp [hall, hq, this]
        · simp [hall, hq]
      | some c =>
        simp only [List.filterMap_append, List.filterMap_cons, hq,
          List.filterMap_nil, List.all_append, List.all_cons, List.all_nil,
          Option.isNone_some, Bool.and_true, Bool.true_and,
          List.reverse_append, List.reverse_cons, List.reverse_nil,
          List.nil_append, List.cons_append, List.takeWhile_cons,
          Bool.and_false, Bool.false_and, if_false]
        simp [hq]
  unfold resumeScan
  rw [main]
  simp only [Prod.mk.injEq, List.nil_append]
  constructor
  · conv_rhs => rw [← List.enum_map_snd diffIds]
    rw [List.filterMap_map]
    rfl
  · by_cases hall : diffIds.enum.all (fun p => (existing p.2).isNone)
    · simp only [hall, if_true]
      have hts : (diffIds.enum.reverse.takeWhile
          fun p => (existing p.2).isNone) = diffIds.enum.reverse := by
        apply List.takeWhile_eq_self_iff.mpr
        intro x hx
        exact List.all_eq_true.mp hall x (List.mem_reverse.mp hx)
      rw [hts, List.reverse_reverse]
    · simp [hall]

/-- C3, counterexample.  When the declared base commit (node 7) is found by
direct lookup but the patch does not apply to it, the BadPatchError raised
while applying to it propagates out of ArcanistHg.apply_diff: the heuristic
candidate 8, to which the patch would apply producing commit 99, is never
tried. -/
theorem c3_counterexample :
    applyDiffHg (some 7) [8]
        (fun n => if n = 7 then .error (.badPatch 7 []) else .ok 99) =
      .error (.badPatch 7 []) ∧
    applyCandidates
        (fun n => if n = 7 then .error (.badPatch 7 []) else .ok 99) [8] =
      .ok 99 := by
  constructor
  · decide
  · decide

/-- C3, amended.  A BadPatchError raised while attempting a heuristic
candidate is always recovered locally — the candidate loop continues with
the next candidate — but when the declared base commit is found by direct
lookup, apply_diff applies the diff to it outside of any handler, so a
failure there propagates out of the Diff Applicator and the heuristic
candidates are never consulted. -/
theorem c3_candidate_recovery :
    (∀ (attempt : Nat → Except PyErr Nat) (c : Nat) (cs : List Nat)
       (e : PyErr),
        attempt c = .error e → e.isBadPatch = true →
        applyCandidates attempt (c :: cs) = applyCandidates attempt cs) ∧
    (∀ (attempt : Nat → Except PyErr Nat) (base : Nat) (cands : List Nat),
        applyDiffHg (some base) cands attempt = attempt base) := by
  constructor
  · intro attempt c cs e he hbad
    simp [applyCandidates, he, hbad]
  · intro attempt base cands
    rfl

/-- C3, witness for the amended theorem at concrete inputs. -/
theorem c3_candidate_recovery_witness :
    applyCandidates
        (fun n => if n = 7 then .error (.badPatch 7 []) else .ok 99)
        [7, 8] =
      applyCandidates
        (fun n => if n = 7 then .error (.badPatch 7 []) else .ok 99) [8] ∧
    applyDiffHg (some 7) [8]
        (fun n => if n = 7 then .error (.badPatch 7 []) else .ok 99) =
      (fun n => if n = 7 then .error (.badPatch 7 []) else .ok 99) 7 :=
  ⟨c3_candidate_recovery.1
      (fun n => if n = 7 then .error (.badPatch 7 []) else .ok 99)
      7 [8] (.badPatch 7 []) (by decide) (by decide),
   c3_candidate_recovery.2
      (fun n => if n = 7 then .error (.badPatch 7 []) else .ok 99) 7 [8]⟩

/-- C6.  In the apply loop of _Applier.run, a PatchFailedError for a diff
that is not the last diff of the revision records no mapping entry, leaves
the results list (and hence the chain anchor, results.getLast?) unchanged,
and continues with the remaining diffs; a PatchFailedError on the last diff
propagates as fatal, with the mapping entries and commits of the previously
applied diffs preserved. -/
theorem c6_skip_and_fatal :
    (∀ (total : Nat) (app : Nat → Option Nat → Except PyErr Nat)
       (idx d : Nat) (rest : List (Nat × Nat)) (results : List Nat)
       (mapping : List (Nat × Nat)) (e : PyErr),
        app d results.getLast? = .error e → e.isPatchFailed = true →
        idx + 1 ≠ total →
        applyLoop total app ((idx, d) :: rest) results mapping =
          applyLoop total app rest results mapping) ∧
    (∀ (total : Nat) (app : Nat → Option Nat → Except PyErr Nat)
       (idx d : Nat) (rest : List (Nat × Nat)) (results : List Nat)
       (mapping : List (Nat × Nat)) (e : PyErr),
        app d results.getLast? = .error e → e.isPatchFailed = true →
        idx + 1 = total →
        applyLoop total app ((idx, d) :: rest) results mapping =
          .error (e, mapping)) := by
  constructor
  · intro total app idx d rest results mapping e he hpf hidx
    simp [applyLoop, he, hpf, hidx]
  · intro total app idx d rest results mapping e he hpf hidx
    simp [applyLoop, he, hpf, hidx]

/-- C6, witness: a three-diff revision where diff 2 fails with a
PatchFailedError; its entry is skipped with results and mapping unchanged,
while the same failure on the final diff propagates with the prior mapping
entries intact. -/
theorem c6_skip_and_fatal_witness :
    applyLoop 3 (fun d _ => if d = 2 then .error .patchFailed else .ok d)
        [(1, 2), (2, 3)] [10] [(1, 10)] =
      applyLoop 3 (fun d _ => if d = 2 then .error .patchFailed else .ok d)
        [(2, 3)] [10] [(1, 10)] ∧
    applyLoop 3 (fun _ _ => .error .patchFailed)
        [(2, 3)] [10] [(1, 10)] =
      .error (.patchFailed, [(1, 10)]) :=
  ⟨c6_skip_and_fatal.1 3
      (fun d _ => if d = 2 then .error .patchFailed else .ok d)
      1 2 [(2, 3)] [10] [(1, 10)] .patchFailed (by decide) (by decide)
      (by decide),
   c6_skip_and_fatal.2 3 (fun _ _ => .error .patchFailed)
      2 3 [] [10] [(1, 10)] .patchFailed (by decide) (by decide) rfl⟩

/-- C9.  When the diff parameters lack dateCreated, _get_commit_info raises
KeyError (never defaulting to the current time), because the CommitInfo
constructor call re-reads all_params for dateCreated unconditionally; and
whenever it succeeds, the timestamp stored in the CommitInfo is the
dateCreated parameter value, never the current-time fallback computed for
the unused local. -/
theorem c9_date_created_keyerror :
    (∀ (msg : List Char) (ui : List Char × List Char)
       (an ae : Option (List Char)) (now : Int) (pc : Option Nat),
        getCommitInfo msg ui ⟨an, ae, none⟩ now pc = .error .keyError) ∧
    (∀ (msg : List Char) (ui : List Char × List Char) (params : DiffParams)
       (now : Int) (pc : Option Nat) (info : CommitInfo),
        getCommitInfo msg ui params now pc = .ok info →
        params.dateCreated = some info.timestamp) := by
  constructor
  · intro msg ui an ae now pc
    cases an with
    | none => rfl
    | some a =>
      by_cases ha : a = []
      · simp [getCommitInfo, ha]
      · cases ae with
        | none => simp [getCommitInfo, ha]
        | some b => simp [getCommitInfo, ha]
  · intro msg ui params now pc info h
    unfold getCommitInfo at h
    cases hdc : params.dateCreated with
    | none =>
      rw [hdc] at h
      cases hau : (match params.authorName with
        | none => (.ok ui : Except PyErr (List Char × List Char))
        | some an =>
          if an = [] then .ok ui
          else
            match params.authorEmail with
            | none => .error .keyError
            | some ae => .ok (an, ae)) with
      | ok v => rw [hau] at h; cases h
      | error e => rw [hau] at h; cases h
    | some t =>
      rw [hdc] at h
      cases hau : (match params.authorName with
        | none => (.ok ui : Except PyErr (List Char × List Char))
        | some an =>
          if an = [] then .ok ui
          else
            match params.authorEmail with
            | none => .error .keyError
            | some ae => .ok (an, ae)) with
      | ok v => rw [hau] at h; injection h with h2; rw [← h2]
      | error e => rw [hau] at h; cases h

/-- C9, witness: a parameter set with dateCreated absent raises KeyError,
and a successful run returns the dateCreated value 7 as the timestamp. -/
theorem c9_date_created_keyerror_witness :
    getCommitInfo "m".data ("u".data, "e".data)
        ⟨some "an".data, some "ae".data, none⟩ 42 none = .error .keyError ∧
    (⟨some "an".data, some "ae".data, some 7⟩ : DiffParams).dateCreated =
      some (7 : Int) :=
  ⟨c9_date_created_keyerror.1 "m".data ("u".data, "e".data)
      (some "an".data) (some "ae".data) 42 none,
   c9_date_created_keyerror.2 "m".data ("u".data, "e".data)
      ⟨some "an".data, some "ae".data, some 7⟩ 42 none
      ⟨"an".data, "ae".data, 7, "m".data, none⟩ (by decide)⟩

/-- C10, counterexample.  A hunk line starting with none of the three
markers does not always raise a plain Exception: when the old content is
absent (a newly created file), _patch_data checks old first and raises the
PathPatchError for old-file data in a new file, which is caught and
accumulated like any other per-path failure. -/
theorem c10_counterexample :
    patchData none [⟨0, ["junk".data]⟩] =
      .error (.pathPatch .newFileHasOld) ∧
    (PyErr.pathPatch .newFileHasOld).isPathPatch = true ∧
    PyErr.pathPatch .newFileHasOld ≠ PyErr.exception := by
  refine ⟨by decide, rfl, by decide⟩

/-- C10, amended.  When the old content is present and the cursor is in
range, a hunk line starting with none of the '+', ' ', '-' markers raises a
plain Exception (the sentinel case is handled before processLine is
reached); a plain Exception is not caught by the PathPatchError handler of
the per-change loop, nor by the BadPatchError handler of the candidate
loop, nor by the PatchFailedError handler of the sequencer loop, so it
aborts the whole revision application even for a non-final diff.  When old
is absent (or the cursor is out of range), the earlier PathPatchError
checks fire instead. -/
theorem c10_unexpected_line_aborts :
    (∀ (oldLines : List (List Char)) (st : PatchState) (line : List Char),
        line.head? ≠ some '+' → line.head? ≠ some ' ' →
        line.head? ≠ some '-' →
        0 ≤ st.oldIdx → st.oldIdx < (oldLines.length : Int) →
        processLine (some oldLines) st line = .error .exception) ∧
    (∀ (blob : Option Nat → Option (List Char)) (ch : Change)
       (rest : List Change) (nd : List NDEntry)
       (bad : List (Option Nat × PatchErrKind)) (e : PyErr),
        applyDiffPath blob ch nd = .error e → e.isPathPatch = false →
        applyChangesGo blob (ch :: rest) nd bad = .error e) ∧
    (∀ (attempt : Nat → Except PyErr Nat) (c : Nat) (cs : List Nat)
       (e : PyErr),
        attempt c = .error e → e.isBadPatch = false →
        applyCandidates attempt (c :: cs) = .error e) ∧
    (∀ (total : Nat) (app : Nat → Option Nat → Except PyErr Nat)
       (idx d : Nat) (rest : List (Nat × Nat)) (results : List Nat)
       (mapping : List (Nat × Nat)) (e : PyErr),
        app d results.getLast? = .error e → e.isPatchFailed = false →
        applyLoop total app ((idx, d) :: rest) results mapping =
          .error (e, mapping)) := by
  refine ⟨?_, ?_, ?_, ?_⟩
  · intro oldLines st line h1 h2 h3 h4 h5
    simp only [processLine]
    rw [if_neg h1, if_neg (by omega), if_neg (by omega), if_neg h2,
      if_neg h3]
  · intro blob ch rest nd bad e he hp
    cases e <;> simp_all [applyChangesGo, PyErr.isPathPatch]
  · intro attempt c cs e he hbp
    simp [applyCandidates, he, hbp]
  · intro total app idx d rest results mapping e he hpf
    simp [applyLoop, he, hpf]

/-- C10, witness for the amended theorem: a bogus line with old content
present and the cursor at 0 raises the plain Exception; an unhandled-type
change propagates its Exception through the per-change loop; an Exception
from an attempt propagates through the candidate loop; and an Exception
from apply_diff propagates out of the sequencer loop even for the first of
three diffs. -/
theorem c10_unexpected_line_aborts_witness :
    processLine (some ["a".data]) ⟨[], true, 0⟩ "junk".data =
      .error .exception ∧
    applyChangesGo (fun _ => none) [⟨.message, some 3, none, []⟩] [] [] =
      .error .exception ∧
    applyCandidates (fun _ => .error .exception) [5] = .error .exception ∧
    applyLoop 3 (fun _ _ => .error .exception) [(0, 1)] [] [] =
      .error (.exception, []) :=
  ⟨c10_unexpected_line_aborts.1 ["a".data] ⟨[], true, 0⟩ "junk".data
      (by decide) (by decide) (by decide) (by decide) (by decide),
   c10_unexpected_line_aborts.2.1 (fun _ => none) ⟨.message, some 3, none, []⟩
      [] [] [] .exception rfl rfl,
   c10_unexpected_line_aborts.2.2.1 (fun _ => .error .exception) 5 []
      .exception rfl rfl,
   c10_unexpected_line_aborts.2.2.2 3 (fun _ _ => .error .exception) 0 1 []
      [] [] .exception rfl rfl⟩

/-- Unfolding equation for patchData in the nonempty-hunks case: run the
hunk loop, then the consumption check, then join the produced lines. -/
theorem patchData_eq (old : List Char) (hunks : List Hunk)
    (hne : hunks ≠ []) :
    patchData (some old) hunks =
      match runHunks (some (splitNL old)) initPatchState hunks with
      | .error e => .error e
      | .ok st =>
        match consumptionCheck (some (splitNL old)) st with
        | .error e => .error e
        | .ok _ => .ok (some (joinNL st.newLines st.termNL)) := by
  unfold patchData
  rw [if_neg (by simpa using hne)]
  rfl

/-- C4.  Exact consumption in _patch_data: a Context or Removed line whose
cursor position is at or past the end of the old lines raises the
PathPatchError reporting that the old file ends at line N (where N is the
number of split entries); an error from the hunk loop makes patchData fail;
and when the hunk loop succeeds, patchData succeeds exactly when the final
cursor sits at len(old_lines), or at len(old_lines) - 1 with that last
entry empty (the artifact of a terminating newline under split). -/
theorem c4_exact_consumption :
    (∀ (oldLines : List (List Char)) (st : PatchState) (line : List Char),
        (line.head? = some ' ' ∨ line.head? = some '-') →
        st.oldIdx ≥ (oldLines.length : Int) →
        processLine (some oldLines) st line =
          .error (.pathPatch (.oldFileEnds (st.oldIdx + 1)
            oldLines.length))) ∧
    (∀ (old : List Char) (hunks : List Hunk) (e : PyErr),
        hunks ≠ [] →
        runHunks (some (splitNL old)) initPatchState hunks = .error e →
        patchData (some old) hunks = .error e) ∧
    (∀ (old : List Char) (hunks : List Hunk) (st : PatchState),
        hunks ≠ [] →
        runHunks (some (splitNL old)) initPatchState hunks = .ok st →
        ((∃ r, patchData (some old) hunks = .ok r) ↔
          (st.oldIdx = ((splitNL old).length : Int) ∨
           (st.oldIdx + 1 = ((splitNL old).length : Int) ∧
            (splitNL old).getD st.oldIdx.toNat [] = [])))) := by
  refine ⟨?_, ?_, ?_⟩
  · intro oldLines st line hcr hge
    have h1 : line.head? ≠ some '+' := by
      rcases hcr with h | h <;> rw [h] <;> decide
    simp only [processLine]
    rw [if_neg h1, if_pos hge]
  · intro old hunks e hne hrun
    rw [patchData_eq old hunks hne, hrun]
  · intro old hunks st hne hrun
    rw [patchData_eq old hunks hne, hrun]
    simp only [consumptionCheck]
    by_cases hA : st.oldIdx + 1 = ((splitNL old).length : Int)
    · rw [if_pos hA]
      by_cases hB : (splitNL old).getD st.oldIdx.toNat [] = []
      · rw [if_neg (fun hcon => hcon hB)]
        constructor
        · intro _; exact Or.inr ⟨hA, hB⟩
        · intro _; exact ⟨_, rfl⟩
      · rw [if_pos hB]
        constructor
        · rintro ⟨r, hr⟩; cases hr
        · rintro (hC | ⟨_, hB2⟩)
          · omega
          · exact absurd hB2 hB
    · rw [if_neg hA]
      by_cases hC : st.oldIdx = ((splitNL old).length : Int)
      · rw [if_neg (fun hcon => hcon hC)]
        constructor
        · intro _; exact Or.inl hC
        · intro _; exact ⟨_, rfl⟩
      · rw [if_pos hC]
        constructor
        · rintro ⟨r, hr⟩; cases hr
        · rintro (hC2 | ⟨hA2, _⟩)
          · exact absurd hC2 hC
          · exact absurd hA2 hA

/-- C4, witness at concrete inputs: a Context line at cursor 1 of a
one-entry old file yields the old-file-ends error; a mismatching context
line makes patchData fail with the hunk-loop error; and a hunk that
consumes the old file up to its trailing-newline artifact yields a
successful patchData run via the consumption characterization. -/
theorem c4_exact_consumption_witness :
    processLine (some ["a".data]) ⟨[], true, 1⟩ " x".data =
      .error (.pathPatch (.oldFileEnds 2 1)) ∧
    patchData (some "a\n".data) [⟨1, [" b".data]⟩] =
      .error (.pathPatch (.lineMismatch 1 "a".data "b".data)) ∧
    (∃ r, patchData (some "a\n".data) [⟨1, [" a".data]⟩] = .ok r) :=
  ⟨by
    have h := c4_exact_consumption.1 ["a".data] ⟨[], true, 1⟩ " x".data
      (Or.inl rfl) (by decide)
    simpa using h,
   c4_exact_consumption.2.1 "a\n".data [⟨1, [" b".data]⟩]
      (.pathPatch (.lineMismatch 1 "a".data "b".data)) (by decide)
      (by decide),
   (c4_exact_consumption.2.2 "a\n".data [⟨1, [" a".data]⟩]
      ⟨["a".data], true, 1⟩ (by decide) (by decide)).mpr (by decide)⟩

/-- Decimal digit characters are digits. -/
theorem digitChar_isDigit (d : Nat) (h : d < 10) :
    (digitChar d).isDigit = true := by
  unfold digitChar
  interval_cases d <;> decide

/-- Numeric value of a decimal digit character. -/
theorem digitChar_toNat (d : Nat) (h : d < 10) :
    (digitChar d).toNat = 48 + d := by
  unfold digitChar
  interval_cases d <;> decide

/-- The decimal representation is never empty. -/
theorem natToDigits_ne_nil (n : Nat) : natToDigits n ≠ [] := by
  unfold natToDigits
  by_cases h : n < 10
  · simp [h]
  · simp [h]

/-- Every character of the decimal representation is a digit. -/
theorem natToDigits_all_digits (n : Nat) :
    ∀ c ∈ natToDigits n, c.isDigit = true := by
  induction n using Nat.strong_induction_on with
  | _ n ih =>
    unfold natToDigits
    by_cases h : n < 10
    · simp only [h, dif_pos]
      intro c hc
      rw [List.mem_singleton] at hc
      rw [hc]
      exact digitChar_isDigit n h
    · simp only [h, dif_neg, not_false_eq_true]
      intro c hc
      rcases List.mem_append.mp hc with hc1 | hc2
      · exact ih (n / 10) (Nat.div_lt_self (by omega) (by omega)) c hc1
      · rw [List.mem_singleton] at hc2
        rw [hc2]
        exact digitChar_isDigit (n % 10) (Nat.mod_lt n (by omega))

/-- Reading back the decimal representation gives the original number,
so the int() applied by the loader inverts the %d of the saver. -/
theorem digitsToNat_natToDigits (n : Nat) :
    digitsToNat (natToDigits n) = n := by
  induction n using Nat.strong_induction_on with
  | _ n ih =>
    unfold natToDigits
    by_cases h : n < 10
    · simp only [h, dif_pos]
      simp only [digitsToNat, List.foldl_cons, List.foldl_nil]
      have := digitChar_toNat n h
      omega
    · simp only [h, dif_neg, not_false_eq_true]
      have hstep : digitsToNat (natToDigits (n / 10) ++ [digitChar (n % 10)]) =
          digitsToNat (natToDigits (n / 10)) * 10 +
            ((digitChar (n % 10)).toNat - 48) := by
        simp [digitsToNat, List.foldl_append]
      rw [hstep, ih (n / 10) (Nat.div_lt_self (by omega) (by omega)),
        digitChar_toNat (n % 10) (Nat.mod_lt n (by omega))]
      omega

/-- takeWhile over a run of satisfying characters followed by a failing
character keeps exactly the run. -/
theorem takeWhile_append_run (p : Char → Bool) (l1 : List Char) (x : Char)
    (l2 : List Char) (h1 : ∀ c ∈ l1, p c = true) (hx : p x = false) :
    (l1 ++ x :: l2).takeWhile p = l1 := by
  induction l1 with
  | nil => simp [List.takeWhile_cons, hx]
  | cons a l ih =>
    have ha : p a = true := h1 a (List.mem_cons_self a l)
    simp only [List.cons_append, List.takeWhile_cons, ha, if_true]
    rw [ih (fun c hc => h1 c (List.mem_cons_of_mem a hc))]

/-- Parsing inverts formatting: the mapping line written for a diff id and a
nonempty all-hex commit string parses back to exactly that pair. -/
theorem parseLine_fmtLine (k : Nat) (v : List Char) (hne : v ≠ [])
    (hhex : v.all isHexChar = true) :
    parseLine (fmtLine k v) = some (k, v) := by
  have hds : (natToDigits k ++ ':' :: ' ' :: v).takeWhile Char.isDigit =
      natToDigits k :=
    takeWhile_append_run Char.isDigit (natToDigits k) ':' (' ' :: v)
      (natToDigits_all_digits k) (by decide)
  have hdrop : (natToDigits k ++ ':' :: ' ' :: v).drop
      (natToDigits k).length = ':' :: ' ' :: v :=
    List.drop_left (natToDigits k) (':' :: ' ' :: v)
  simp only [parseLine, fmtLine]
  rw [hds, hdrop]
  simp [List.isEmpty_eq_true, natToDigits_ne_nil k, hne, hhex,
    digitsToNat_natToDigits]

/-- The loader folded over formatted lines accumulates exactly the formatted
entries, in order. -/
theorem loadLines_map_fmt (entries : List (Nat × List Char))
    (hv : ∀ e ∈ entries, e.2 ≠ [] ∧ e.2.all isHexChar = true) :
    ∀ acc : List (Nat × List Char),
    (entries.map fun e => fmtLine e.1 e.2).foldl
        (fun acc l => acc.bind fun m => (parseLine l).map fun e => m ++ [e])
        (some acc) =
      some (acc ++ entries) := by
  induction entries with
  | nil => intro acc; simp
  | cons e es ih =>
    intro acc
    have he := hv e (List.mem_cons_self e es)
    simp only [List.map_cons, List.foldl_cons]
    rw [show parseLine (fmtLine e.1 e.2) = some (e.1, e.2) from
      parseLine_fmtLine e.1 e.2 he.1 he.2]
    simp only [Option.map_some', Option.some_bind, Prod.mk.eta]
    rw [ih (fun x hx => hv x (List.mem_cons_of_mem e hx)) (acc ++ [e])]
    simp

/-- C8.  The diff-to-commit mapping round-trips through its file format:
saving appends exactly the line for the diff id and commit hex with an
append-only open; a missing file loads as the empty mapping; and loading
the formatted lines succeeds and indexes by diff id, so that the commit
recorded for an id is the one from the last line bearing that id. -/
theorem c8_mapping_roundtrip :
    (∀ (fileLines : List (List Char)) (diffId : Nat) (hex : List Char),
        saveDiffMapping fileLines diffId hex =
          fileLines ++ [fmtLine diffId hex]) ∧
    loadDiffMappings none = some [] ∧
    (∀ entries : List (Nat × List Char),
        (∀ e ∈ entries, e.2 ≠ [] ∧ e.2.all isHexChar = true) →
        loadDiffMappings (some (entries.map fun e => fmtLine e.1 e.2)) =
            some entries ∧
        ∀ k, dictGet entries k =
          ((entries.filter fun e => e.1 = k).getLast?).map (fun e => e.2)) := by
  refine ⟨fun _ _ _ => rfl, rfl, ?_⟩
  intro entries hv
  constructor
  · simp only [loadDiffMappings]
    rw [loadLines_map_fmt entries hv []]
    simp
  · intro k
    rfl

/-- C8, witness: three concrete lines, with diff id 12 written twice; the
file loads back to the written entries and the lookup for id 12 returns the
hex of the later line. -/
theorem c8_mapping_roundtrip_witness :
    loadDiffMappings
        (some ([(12, "ab".data), (7, "ff".data), (12, "0c".data)].map
          fun e => fmtLine e.1 e.2)) =
      some [(12, "ab".data), (7, "ff".data), (12, "0c".data)] ∧
    dictGet [(12, "ab".data), (7, "ff".data), (12, "0c".data)] 12 =
      some "0c".data := by
  have h := c8_mapping_roundtrip.2.2
    [(12, "ab".data), (7, "ff".data), (12, "0c".data)] (by decide)
  refine ⟨h.1, ?_⟩
  rw [h.2 12]
  decide

/-- Membership in the priority queue after an insertion. -/
theorem mem_pqInsert (a e : HeapEntry) (l : List HeapEntry) :
    a ∈ pqInsert e l ↔ a = e ∨ a ∈ l := by
  induction l with
  | nil => simp [pqInsert]
  | cons x xs ih =>
    simp only [pqInsert]
    by_cases hc : e.rev > x.rev
    · rw [if_pos hc]
      simp only [List.mem_cons]
    · rw [if_neg hc]
      simp only [List.mem_cons, ih]
      tauto

/-- Inserting an entry with a fresh rev preserves the strictly-descending
ordering of the queue. -/
theorem pairwise_pqInsert (e : HeapEntry) (l : List HeapEntry)
    (hs : l.Pairwise (fun a b => b.rev < a.rev))
    (hfresh : ∀ x ∈ l, x.rev ≠ e.rev) :
    (pqInsert e l).Pairwise (fun a b => b.rev < a.rev) := by
  induction l with
  | nil => simp [pqInsert]
  | cons x xs ih =>
    obtain ⟨hx_all, hs'⟩ := List.pairwise_cons.mp hs
    simp only [pqInsert]
    by_cases hc : e.rev > x.rev
    · rw [if_pos hc]
      refine List.pairwise_cons.mpr ⟨?_, hs⟩
      intro b hb
      rcases List.mem_cons.mp hb with rfl | hb'
      · exact hc
      · exact lt_trans (hx_all b hb') hc
    · rw [if_neg hc]
      refine List.pairwise_cons.mpr ⟨?_, ih hs'
        (fun y hy => hfresh y (List.mem_cons_of_mem x hy))⟩
      intro b hb
      rcases (mem_pqInsert b e xs).mp hb with rfl | hb'
      · have hne := hfresh x (List.mem_cons_self x xs)
        omega
      · exact hx_all b hb'

/-- A head strictly above every element of a strictly-descending list
extends the descending chain. -/
theorem chain_cons_of_bound (r : Nat) (l : List Nat)
    (hl : List.Chain' (· > ·) l) (hb : ∀ x ∈ l, x < r) :
    List.Chain' (· > ·) (r :: l) := by
  cases l with
  | nil => simp
  | cons y ys =>
    exact List.chain'_cons.mpr ⟨hb y (List.mem_cons_self y ys), hl⟩

/-- Main invariant of the heap walk: starting from a strictly-descending
heap whose revs are all marked seen and whose generators are strictly
decreasing below their key, the walk yields a strictly decreasing sequence,
and every yielded rev is bounded by some heap entry. -/
theorem rflLoop_descending :
    ∀ (heap : List HeapEntry) (seen : List Nat),
      heap.Pairwise (fun a b => b.rev < a.rev) →
      (∀ e ∈ heap, e.rev ∈ seen) →
      (∀ e ∈ heap, List.Chain' (· > ·) (e.rev :: e.gen)) →
      List.Chain' (· > ·) (rflLoop heap seen) ∧
      (∀ x ∈ rflLoop heap seen, ∃ e, e ∈ heap ∧ x ≤ e.rev) := by
  intro heap seen
  induction heap, seen using rflLoop.induct with
  | case1 seen =>
    intro _ _ _
    simp [rflLoop]
  | case2 r rest seen ih =>
    intro hsort hseen hgen
    obtain ⟨hlt_all, hsort'⟩ := List.pairwise_cons.mp hsort
    have hrest := ih hsort'
      (fun e he => hseen e (List.mem_cons_of_mem _ he))
      (fun e he => hgen e (List.mem_cons_of_mem _ he))
    have heq : rflLoop (⟨r, []⟩ :: rest) seen = r :: rflLoop rest seen := by
      simp only [rflLoop]
    rw [heq]
    constructor
    · refine chain_cons_of_bound r _ hrest.1 ?_
      intro x hx
      obtain ⟨e, he, hxe⟩ := hrest.2 x hx
      exact lt_of_le_of_lt hxe (hlt_all e he)
    · intro x hx
      rcases List.mem_cons.mp hx with rfl | hx'
      · exact ⟨⟨x, []⟩, List.mem_cons_self _ _, le_refl _⟩
      · obtain ⟨e, he, hxe⟩ := hrest.2 x hx'
        exact ⟨e, List.mem_cons_of_mem _ he, hxe⟩
  | case3 r nr g' rest seen ih1 ih2 =>
    intro hsort hseen hgen
    obtain ⟨hlt_all, hsort'⟩ := List.pairwise_cons.mp hsort
    have htop_gt : r > nr := by
      have hc := hgen ⟨r, nr :: g'⟩ (List.mem_cons_self _ _)
      exact (List.chain'_cons.mp hc).1
    by_cases hmem : nr ∈ seen
    · have hrest := ih1 hsort'
        (fun e he => hseen e (List.mem_cons_of_mem _ he))
        (fun e he => hgen e (List.mem_cons_of_mem _ he))
      have heq : rflLoop (⟨r, nr :: g'⟩ :: rest) seen =
          r :: rflLoop rest seen := by
        simp only [rflLoop]
        rw [if_pos hmem]
      rw [heq]
      constructor
      · refine chain_cons_of_bound r _ hrest.1 ?_
        intro x hx
        obtain ⟨e, he, hxe⟩ := hrest.2 x hx
        exact lt_of_le_of_lt hxe (hlt_all e he)
      · intro x hx
        rcases List.mem_cons.mp hx with rfl | hx'
        · exact ⟨⟨x, nr :: g'⟩, List.mem_cons_self _ _, le_refl _⟩
        · obtain ⟨e, he, hxe⟩ := hrest.2 x hx'
          exact ⟨e, List.mem_cons_of_mem _ he, hxe⟩
    · have hpp : pqPushPop ⟨nr, g'⟩ (⟨r, g'⟩ :: rest) =
          pqInsert ⟨nr, g'⟩ rest := by
        simp only [pqPushPop]
        rw [if_neg (by simp; omega)]
      have heq : rflLoop (⟨r, nr :: g'⟩ :: rest) seen =
          r :: rflLoop (pqInsert ⟨nr, g'⟩ rest) (nr :: seen) := by
        simp only [rflLoop]
        rw [if_neg hmem, hpp]
      have hfresh : ∀ x ∈ rest, x.rev ≠ nr := by
        intro x hx hcon
        exact hmem (hcon ▸ hseen x (List.mem_cons_of_mem _ hx))
      have hsortI : (pqInsert ⟨nr, g'⟩ rest).Pairwise
          (fun a b => b.rev < a.rev) :=
        pairwise_pqInsert ⟨nr, g'⟩ rest hsort' hfresh
      have hseenI : ∀ e ∈ pqInsert ⟨nr, g'⟩ rest, e.rev ∈ nr :: seen := by
        intro e he
        rcases (mem_pqInsert e ⟨nr, g'⟩ rest).mp he with rfl | he'
        · exact List.mem_cons_self nr seen
        · exact List.mem_cons_of_mem nr
            (hseen e (List.mem_cons_of_mem _ he'))
      have hgenI : ∀ e ∈ pqInsert ⟨nr, g'⟩ rest,
          List.Chain' (· > ·) (e.rev :: e.gen) := by
        intro e he
        rcases (mem_pqInsert e ⟨nr, g'⟩ rest).mp he with rfl | he'
        · have hc := hgen ⟨r, nr :: g'⟩ (List.mem_cons_self _ _)
          exact hc.tail
        · exact hgen e (List.mem_cons_of_mem _ he')
      rw [hpp] at ih2
      have hres := ih2 hsortI hseenI hgenI
      have hltI : ∀ e ∈ pqInsert ⟨nr, g'⟩ rest, e.rev < r := by
        intro e he
        rcases (mem_pqInsert e ⟨nr, g'⟩ rest).mp he with rfl | he'
        · exact htop_gt
        · exact hlt_all e he'
      rw [heq]
      constructor
      · refine chain_cons_of_bound r _ hres.1 ?_
        intro x hx
        obtain ⟨e, he, hxe⟩ := hres.2 x hx
        exact lt_of_le_of_lt hxe (hltI e he)
      · intro x hx
        rcases List.mem_cons.mp hx with rfl | hx'
        · exact ⟨⟨x, nr :: g'⟩, List.mem_cons_self _ _, le_refl _⟩
        · obtain ⟨e, he, hxe⟩ := hres.2 x hx'
          exact ⟨⟨r, nr :: g'⟩, List.mem_cons_self _ _,
            le_of_lt (lt_of_le_of_lt hxe (hltI e he))⟩

/-- The initialization fold of rflWalk preserves the walk invariants: the
heap stays strictly descending, every heap rev is marked seen, and every
entry's key-and-generator sequence is strictly decreasing. -/
theorem rflInit_inv (seeds : List (Nat × List Nat))
    (hmono : ∀ s ∈ seeds, List.Chain' (· > ·) (s.1 :: s.2)) :
    ∀ (hp : List HeapEntry) (sn : List Nat),
      hp.Pairwise (fun a b => b.rev < a.rev) →
      (∀ e ∈ hp, e.rev ∈ sn) →
      (∀ e ∈ hp, List.Chain' (· > ·) (e.rev :: e.gen)) →
      (seeds.foldl
          (fun acc s =>
            if s.1 ∈ acc.2 then acc
            else (pqInsert ⟨s.1, s.2⟩ acc.1, s.1 :: acc.2))
          (hp, sn)).1.Pairwise (fun a b => b.rev < a.rev) ∧
      (∀ e ∈ (seeds.foldl
          (fun acc s =>
            if s.1 ∈ acc.2 then acc
            else (pqInsert ⟨s.1, s.2⟩ acc.1, s.1 :: acc.2))
          (hp, sn)).1,
        e.rev ∈ (seeds.foldl
          (fun acc s =>
            if s.1 ∈ acc.2 then acc
            else (pqInsert ⟨s.1, s.2⟩ acc.1, s.1 :: acc.2))
          (hp, sn)).2) ∧
      (∀ e ∈ (seeds.foldl
          (fun acc s =>
            if s.1 ∈ acc.2 then acc
            else (pqInsert ⟨s.1, s.2⟩ acc.1, s.1 :: acc.2))
          (hp, sn)).1,
        List.Chain' (· > ·) (e.rev :: e.gen)) := by
  induction seeds with
  | nil =>
    intro hp sn h1 h2 h3
    exact ⟨h1, h2, h3⟩
  | cons s ss ih =>
    intro hp sn h1 h2 h3
    have hmono' : ∀ t ∈ ss, List.Chain' (· > ·) (t.1 :: t.2) :=
      fun t ht => hmono t (List.mem_cons_of_mem s ht)
    simp only [List.foldl_cons]
    by_cases hc : s.1 ∈ sn
    · rw [if_pos hc]
      exact ih hmono' hp sn h1 h2 h3
    · rw [if_neg hc]
      have hfresh : ∀ x ∈ hp, x.rev ≠ s.1 := by
        intro x hx hcon
        exact hc (hcon ▸ h2 x hx)
      refine ih hmono' (pqInsert ⟨s.1, s.2⟩ hp) (s.1 :: sn)
        (pairwise_pqInsert ⟨s.1, s.2⟩ hp h1 hfresh) ?_ ?_
      · intro e he
        rcases (mem_pqInsert e ⟨s.1, s.2⟩ hp).mp he with rfl | he'
        · exact List.mem_cons_self s.1 sn
        · exact List.mem_cons_of_mem s.1 (h2 e he')
      · intro e he
        rcases (mem_pqInsert e ⟨s.1, s.2⟩ hp).mp he with rfl | he'
        · exact hmono s (List.mem_cons_self s ss)
        · exact h3 e he'

/-- C7.  The merged backward ancestor walk never yields the same commit
number twice: provided each per-path generator produces a strictly
decreasing sequence of commit numbers below its seed (the backend contract:
ancestors are ordered newest to oldest), the yielded candidate sequence has
no duplicates, even when a commit is reachable through several independent
generators. -/
theorem c7_no_duplicate_candidates (seeds : List (Nat × List Nat))
    (hmono : ∀ s ∈ seeds, List.Chain' (· > ·) (s.1 :: s.2)) :
    (rflWalk seeds).Nodup := by
  simp only [rflWalk]
  obtain ⟨h1, h2, h3⟩ := rflInit_inv seeds hmono [] []
    (by simp) (by simp) (by simp)
  have hchain := (rflLoop_descending _ _ h1 h2 h3).1
  have hp := (List.chain'_iff_pairwise).mp hchain
  exact hp.imp (fun hab => Nat.ne_of_gt hab)

/-- C7, witness: two overlapping generators (commit 3 is reachable through
both) produce the duplicate-free descending sequence [5, 4, 3, 1]. -/
theorem c7_no_duplicate_candidates_witness :
    (rflWalk [(5, [3, 1]), (4, [3, 2])]).Nodup :=
  c7_no_duplicate_candidates [(5, [3, 1]), (4, [3, 2])]
    (by intro s hs; fin_cases hs <;> simp [List.chain'_cons])

end ArcApply
